import Mathlib

/-!
Verification development for the `compress` HTTP middleware package
(content-negotiation of compression encodings, compressing response
writer, decompressing request reader, and the handler wiring).

The Go source is shallowly embedded:

* Go strings are embedded as `List Char` (the inputs of interest are
  ASCII, where Go's byte indexing and `List Char` coincide; the
  RFC 2616 octet classification below is applied to `Char.toNat`).
* `float64` quality values are embedded as `ℚ` with exact arithmetic;
  the Go `int` accumulators `n`, `d` of `expectQuality` are embedded as
  `ℕ` (overflow would require header quality strings of 19+ digits,
  far outside any behavior the claims exercise).
* `http.Header` is embedded as a function from key to an optional list
  of values (`none` models a key absent from the Go map, matching the
  presence test `_, has := h[k]` used by the source).
* The external codec libraries (gzip, flate, brotli, snappy, s2) are
  black-box stream transformers per the design scope; their
  constructors are modelled as succeeding, and the compressing /
  decompressing streams are modelled by event logs recording what the
  wrappers forward to them.
-/

/-- Convert a Lean string literal to the `List Char` embedding of a Go string. -/
def s2l (s : String) : List Char := s.data

/-! ## Builtin algorithm identifiers (source: `compress.go` constants) -/

def GZIP : List Char := s2l "gzip"

def DEFLATE : List Char := s2l "deflate"

def BROTLI : List Char := s2l "br"

def SNAPPY : List Char := s2l "snappy"

def S2 : List Char := s2l "s2"

/-- IDENTITY when no transformation whatsoever. -/
def IDENTITY : List Char := s2l "identity"

/-! ## RFC 2616 octet classification (source: `negotiate.go` `octetTypes` init) -/

/-- The separator set of RFC 2616 used by the `octetTypes` initialization:
space, tab, double quote, parens, comma, slash, colon, semicolon, angle
brackets, equals, question mark, at sign, square brackets, backslash and
curly braces. -/
def separatorChars : List Char := s2l " \t\"(),/:;<=>?@[]\\\x7b\x7d"

/-- `octetTypes[c] & isSpace ≠ 0`: the character is one of space, tab, CR, LF. -/
def isSpaceOctet (c : Char) : Bool :=
  c == ' ' || c == '\t' || c == '\r' || c == '\n'

/-- `octetTypes[c] & isToken ≠ 0`: a CHAR (`c ≤ 127`) that is neither a
control character (`c ≤ 31` or `c = 127`) nor a separator. -/
def isTokenOctet (c : Char) : Bool :=
  decide (c.toNat ≤ 127) &&
    !(decide (c.toNat ≤ 31) || decide (c.toNat = 127)) &&
    !(separatorChars.contains c)

/-- The character class accepted by `expectTokenSlash`: a token octet, or `/`. -/
def isTokenSlashOctet (c : Char) : Bool := isTokenOctet c || c == '/'

/-! ## Header scanning helpers (source: `negotiate.go`) -/

/-- `skipSpace` drops the maximal leading run of space octets. -/
def skipSpace (s : List Char) : List Char := s.dropWhile isSpaceOctet

/-- `expectTokenSlash` splits off the maximal leading run of token-or-slash
octets, returning `(token, rest)`. -/
def expectTokenSlash (s : List Char) : List Char × List Char :=
  (s.takeWhile isTokenSlashOctet, s.dropWhile isTokenSlashOctet)

/-- A decimal digit `0..9`. -/
def isDigitOctet (c : Char) : Bool := decide (48 ≤ c.toNat) && decide (c.toNat ≤ 57)

/-- The digit loop of `expectQuality`: starting from `q` (the integer part,
`0` or `1`), consume the maximal run of digits after the dot, accumulating
`n = n*10 + digit` and `d = 10^k`, and return `q + n/d` with the rest.

Fidelity note: the source computes `q + float64(n)/float64(d)` with 64-bit
`int` accumulators, while this embedding uses exact `ℚ` over unbounded
`ℕ`.  The two coincide on ordinary quality strings but not on extreme
ones: 17+ fraction digits round in `float64` (a 17-nines fraction yields
exactly `2.0`) and 20+ digits wrap the integer accumulators.  For that
reason no quantitative upper bound proved of this model is asserted of
the program. -/
def expectQualityFrac (q : ℚ) (s : List Char) : ℚ × List Char :=
  match s with
  | '.' :: rest =>
    (q +
        (((rest.takeWhile isDigitOctet).foldl (fun n c => n * 10 + (c.toNat - 48)) 0 : ℕ) : ℚ) /
          ((10 ^ (rest.takeWhile isDigitOctet).length : ℕ) : ℚ),
      rest.dropWhile isDigitOctet)
  | _ => (q, s)

/-- `expectQuality` parses a quality value: empty input or a leading octet
other than `0`/`1` yields `(-1, "")`; otherwise the integer part is `0` or
`1`, optionally followed by `.` and a run of digits extending it. -/
def expectQuality (s : List Char) : ℚ × List Char :=
  match s with
  | [] => (-1, [])
  | c :: rest =>
    if c == '0' then expectQualityFrac 0 rest
    else if c == '1' then expectQualityFrac 1 rest
    else (-1, [])

/-- acceptSpec describes an Accept* header entry: a value token and its
quality weight. -/
structure acceptSpec where
  value : List Char
  q : ℚ
deriving DecidableEq

/-- The optional `;q=` parameter block of `parseAccept`, run after the entry
token and a `skipSpace`.  Mirrors the inline code: when the rest starts with
`;`, whitespace is skipped and a literal `q=` is required, the quality is
parsed by `expectQuality`, and a negative quality (malformed) discards the
entry (`none`, which the caller turns into abandoning the remainder of this
header value, Go's `continue loop`); when no `;` follows, the default
quality is `1.0`. -/
def parseAcceptParams (s : List Char) : Option (ℚ × List Char) :=
  match s with
  | ';' :: t =>
    match skipSpace t with
    | 'q' :: '=' :: u =>
      if (expectQuality u).1 < 0 then none else some (expectQuality u)
    | _ => none
  | _ => some (1, s)

/-- The inner `for` loop of `parseAccept` over a single header value,
written with explicit fuel (the loop consumes at least one octet per
iteration, so `length + 1` fuel always suffices; see `parseAcceptValue`).
Each iteration: read a token (empty token abandons the value), read the
optional `;q=` parameter (malformed parameter abandons the value), append
the entry, and continue past a comma if present. -/
def parseAcceptValueAux : ℕ → List Char → List acceptSpec
  | 0, _ => []
  | fuel + 1, s =>
    if (expectTokenSlash s).1 = [] then []
    else
      match parseAcceptParams (skipSpace (expectTokenSlash s).2) with
      | none => []
      | some (q, s3) =>
        match skipSpace s3 with
        | ',' :: t =>
          { value := (expectTokenSlash s).1, q := q } :: parseAcceptValueAux fuel (skipSpace t)
        | _ => [{ value := (expectTokenSlash s).1, q := q }]

/-- The specs contributed by one header value string. -/
def parseAcceptValue (s : List Char) : List acceptSpec :=
  parseAcceptValueAux (s.length + 1) s

/-- parseAccept parses Accept* headers: the entries of each header value in
order, concatenated over the input values in order. -/
def parseAccept (in_ : List (List Char)) : List acceptSpec :=
  (in_.map parseAcceptValue).flatten

/-! ## negotiateAcceptHeader (source: `negotiate.go`) -/

/-- One step of the inner loop of `negotiateAcceptHeader`: the state
`(bestQ, bestOffer)` is replaced by `(spec.Q, offer)` when `spec.Q > bestQ`
and the spec's value is the wildcard `*` or equals the offer. -/
def negotiateUpdate (offer : List Char) (st : ℚ × List Char) (spec : acceptSpec) :
    ℚ × List Char :=
  if spec.q > st.1 ∧ (spec.value = ['*'] ∨ spec.value = offer) then (spec.q, offer) else st

/-- The inner loop of `negotiateAcceptHeader` for a fixed offer: fold
`negotiateUpdate` over all parsed specs. -/
def negotiateOfferFold (specs : List acceptSpec) (st : ℚ × List Char) (offer : List Char) :
    ℚ × List Char :=
  specs.foldl (negotiateUpdate offer) st

/-- A tiny copy is better than a small dependency: pick the best offer for
the given Accept* header values.  An empty `bestOffer` fallback is replaced
by `IDENTITY`; the offers are scanned in order against all parsed specs
with a strict-greater quality comparison starting from `-1.0`; a final best
quality of exactly `0` yields the empty result. -/
def negotiateAcceptHeader (in_ : List (List Char)) (offers : List (List Char))
    (bestOffer : List Char) : List Char :=
  let bestOffer := if bestOffer = [] then IDENTITY else bestOffer
  let specs := parseAccept in_
  let best := offers.foldl (negotiateOfferFold specs) ((-1 : ℚ), bestOffer)
  if best.1 = 0 then [] else best.2

/-! ## Specification-side vocabulary for the negotiation claims

These definitions follow the words of the specification ("entries whose
token equals the offer or is the wildcard", "strictly highest quality
among matching entries") and are used to state the claims about
`negotiateAcceptHeader`. -/

/-- An entry matches an offer when its token is the wildcard `*` or equals
the offer. -/
def specMatches (offer : List Char) (spec : acceptSpec) : Bool :=
  decide (spec.value = ['*'] ∨ spec.value = offer)

/-- The qualities of the parsed entries matching a given offer. -/
def matchQs (specs : List acceptSpec) (offer : List Char) : List ℚ :=
  (specs.filter (specMatches offer)).map acceptSpec.q

/-- The qualities of all (offer, entry) matches, in offer-major order. -/
def allMatchQs (specs : List acceptSpec) (offers : List (List Char)) : List ℚ :=
  (offers.map (matchQs specs)).flatten

/-- The best quality among all matches of the parsed header against the
offers, starting from the algorithm's initial `-1` (so `-1` means that
nothing matched). -/
def bestMatchedQ (in_ : List (List Char)) (offers : List (List Char)) : ℚ :=
  (allMatchQs (parseAccept in_) offers).foldl max (-1)

/-! ## Lemmas about `foldl max` over ℚ -/

lemma le_foldl_max (l : List ℚ) : ∀ q : ℚ, q ≤ l.foldl max q := by
  induction l with
  | nil => intro q; simp
  | cons a t ih => intro q; exact le_trans (le_max_left q a) (ih (max q a))

lemma mem_le_foldl_max (l : List ℚ) : ∀ (q x : ℚ), x ∈ l → x ≤ l.foldl max q := by
  induction l with
  | nil => intro q x hx; simp at hx
  | cons a t ih =>
    intro q x hx
    rcases List.mem_cons.mp hx with h | h
    · subst h
      exact le_trans (le_max_right q x) (le_foldl_max t _)
    · exact ih _ x h

lemma foldl_max_eq_self (l : List ℚ) : ∀ q : ℚ, (∀ x ∈ l, x ≤ q) → l.foldl max q = q := by
  induction l with
  | nil => intro q _; rfl
  | cons a t ih =>
    intro q h
    have ha : max q a = q := max_eq_left (h a (List.mem_cons_self a t))
    simpa [ha] using ih q (fun x hx => h x (List.mem_cons_of_mem a hx))

lemma foldl_max_lt (l : List ℚ) :
    ∀ q m : ℚ, q < m → (∀ x ∈ l, x < m) → l.foldl max q < m := by
  induction l with
  | nil => intro q m hq _; exact hq
  | cons a t ih =>
    intro q m hq h
    exact ih (max q a) m (max_lt hq (h a (List.mem_cons_self a t)))
      (fun x hx => h x (List.mem_cons_of_mem a hx))

/-! ## The negotiation fold, related to the specification vocabulary -/

lemma negotiate_inner_fst (offer : List Char) (specs : List acceptSpec) :
    ∀ st : ℚ × List Char,
      (specs.foldl (negotiateUpdate offer) st).1 = (matchQs specs offer).foldl max st.1 := by
  induction specs with
  | nil => intro st; rfl
  | cons sp t ih =>
    intro st
    by_cases hm : sp.value = ['*'] ∨ sp.value = offer
    · by_cases hq : sp.q > st.1
      · have hu : negotiateUpdate offer st sp = (sp.q, offer) := by
          simp [negotiateUpdate, hq, hm]
        have hmax : max st.1 sp.q = sp.q := max_eq_right (le_of_lt hq)
        simp [List.foldl_cons, hu, ih, matchQs, List.filter_cons, specMatches, hm, hmax]
      · have hu : negotiateUpdate offer st sp = st := by
          simp [negotiateUpdate, hq]
        have hmax : max st.1 sp.q = st.1 := max_eq_left (le_of_not_lt hq)
        simp [List.foldl_cons, hu, ih, matchQs, List.filter_cons, specMatches, hm, hmax]
    · have hu : negotiateUpdate offer st sp = st := by
        simp [negotiateUpdate, hm]
      simp [List.foldl_cons, hu, ih, matchQs, List.filter_cons, specMatches, hm]

lemma negotiate_inner_snd (offer : List Char) (specs : List acceptSpec) :
    ∀ st : ℚ × List Char,
      (specs.foldl (negotiateUpdate offer) st).2 =
        if st.1 < (specs.foldl (negotiateUpdate offer) st).1 then offer else st.2 := by
  induction specs with
  | nil => intro st; simp
  | cons sp t ih =>
    intro st
    by_cases hc : sp.q > st.1 ∧ (sp.value = ['*'] ∨ sp.value = offer)
    · have hu : negotiateUpdate offer st sp = (sp.q, offer) := by
        simp [negotiateUpdate, hc]
      have hR : sp.q ≤ (t.foldl (negotiateUpdate offer) (sp.q, offer)).1 := by
        rw [negotiate_inner_fst]
        exact le_foldl_max _ _
      have hstR : st.1 < (t.foldl (negotiateUpdate offer) (sp.q, offer)).1 :=
        lt_of_lt_of_le hc.1 hR
      simp only [List.foldl_cons, hu]
      rw [ih (sp.q, offer)]
      simp [hstR]
    · have hu : negotiateUpdate offer st sp = st := by
        simp only [negotiateUpdate, ite_eq_right_iff]
        intro h; exact absurd h hc
      simp only [List.foldl_cons, hu, ih]

lemma negotiateOfferFold_fst (specs : List acceptSpec) (st : ℚ × List Char) (offer : List Char) :
    (negotiateOfferFold specs st offer).1 = (matchQs specs offer).foldl max st.1 :=
  negotiate_inner_fst offer specs st

lemma negotiateOfferFold_snd (specs : List acceptSpec) (st : ℚ × List Char) (offer : List Char) :
    (negotiateOfferFold specs st offer).2 =
      if st.1 < (negotiateOfferFold specs st offer).1 then offer else st.2 :=
  negotiate_inner_snd offer specs st

lemma negotiate_outer_fst (specs : List acceptSpec) (offers : List (List Char)) :
    ∀ st : ℚ × List Char,
      (offers.foldl (negotiateOfferFold specs) st).1 = (allMatchQs specs offers).foldl max st.1 := by
  induction offers with
  | nil => intro st; rfl
  | cons of rest ih =>
    intro st
    have hA : allMatchQs specs (of :: rest) = matchQs specs of ++ allMatchQs specs rest := by
      simp [allMatchQs]
    rw [List.foldl_cons, ih, hA, List.foldl_append]
    have : (negotiateOfferFold specs st of).1 = (matchQs specs of).foldl max st.1 :=
      negotiate_inner_fst of specs st
    rw [this]

lemma negotiate_outer_const (specs : List acceptSpec) (offers : List (List Char)) :
    ∀ st : ℚ × List Char,
      (∀ x ∈ allMatchQs specs offers, x ≤ st.1) →
      offers.foldl (negotiateOfferFold specs) st = st := by
  induction offers with
  | nil => intro st _; rfl
  | cons of rest ih =>
    intro st h
    have hA : ∀ x ∈ matchQs specs of, x ≤ st.1 := by
      intro x hx
      exact h x (by simp [allMatchQs, hx])
    have h1 : (negotiateOfferFold specs st of).1 = st.1 := by
      rw [negotiateOfferFold_fst]
      exact foldl_max_eq_self _ _ hA
    have h2 : (negotiateOfferFold specs st of).2 = st.2 := by
      rw [negotiateOfferFold_snd, h1]
      simp
    have hst : negotiateOfferFold specs st of = st := Prod.ext h1 h2
    rw [List.foldl_cons, hst]
    exact ih st (fun x hx => h x (by simp [allMatchQs] at hx ⊢; exact Or.inr hx))

lemma negotiate_outer_main (specs : List acceptSpec) (offers : List (List Char)) :
    ∀ (st : ℚ × List Char) (o : List Char),
      st.1 < (allMatchQs specs offers).foldl max st.1 →
      offers.find?
          (fun of => decide ((allMatchQs specs offers).foldl max st.1 ∈ matchQs specs of)) =
        some o →
      offers.foldl (negotiateOfferFold specs) st =
        ((allMatchQs specs offers).foldl max st.1, o) := by
  induction offers with
  | nil =>
    intro st o hlt _
    simp only [allMatchQs, List.map_nil, List.flatten_nil, List.foldl_nil] at hlt
    exact absurd hlt (lt_irrefl _)
  | cons of rest ih =>
    intro st o hlt hfind
    have hA : allMatchQs specs (of :: rest) = matchQs specs of ++ allMatchQs specs rest := by
      simp [allMatchQs]
    have hM : (allMatchQs specs (of :: rest)).foldl max st.1 =
        (allMatchQs specs rest).foldl max ((matchQs specs of).foldl max st.1) := by
      rw [hA, List.foldl_append]
    set M := (allMatchQs specs (of :: rest)).foldl max st.1 with hMdef
    set q1 := (matchQs specs of).foldl max st.1 with hq1def
    have h1 : (negotiateOfferFold specs st of).1 = q1 := negotiate_inner_fst of specs st
    by_cases hp : M ∈ matchQs specs of
    · have hfo : (of :: rest).find?
          (fun x => decide (M ∈ matchQs specs x)) = some of :=
        List.find?_cons_of_pos _ (by simpa using hp)
      have ho : o = of := by
        rw [hfo] at hfind
        exact (Option.some_inj.mp hfind).symm
      have hq1M : q1 = M := by
        refine le_antisymm ?_ ?_
        · rw [hM]; exact le_foldl_max _ _
        · exact mem_le_foldl_max _ _ _ hp
      have hstq1 : st.1 < q1 := hq1M ▸ hlt
      have hst' : negotiateOfferFold specs st of = (M, of) := by
        refine Prod.ext (h1.trans hq1M) ?_
        rw [negotiateOfferFold_snd, h1]
        simp [hstq1]
      have hMrest : (allMatchQs specs rest).foldl max q1 = M := hM.symm
      have hconst : rest.foldl (negotiateOfferFold specs) (M, of) = (M, of) := by
        refine negotiate_outer_const specs rest (M, of) ?_
        intro x hx
        exact le_of_le_of_eq (mem_le_foldl_max _ q1 x hx) hMrest
      rw [List.foldl_cons, hst', hconst, ho]
    · have hfr : rest.find? (fun x => decide (M ∈ matchQs specs x)) = some o := by
        rw [← hfind]
        exact (List.find?_cons_of_neg _ (by simpa using hp)).symm
      have hq1M : q1 < M := by
        refine foldl_max_lt _ _ _ hlt ?_
        intro x hx
        have hxle : x ≤ M := by
          refine mem_le_foldl_max _ st.1 x ?_
          rw [hA]
          exact List.mem_append_left _ hx
        exact lt_of_le_of_ne hxle (fun hEq => hp (hEq ▸ hx))
      have hMrest : (allMatchQs specs rest).foldl max q1 = M := hM.symm
      have hst1 : (negotiateOfferFold specs st of).1 = q1 := h1
      have hmain := ih (negotiateOfferFold specs st of) o
      rw [hst1, hMrest] at hmain
      rw [List.foldl_cons, hmain hq1M hfr]

/-! ## Claims C1 and C2: the negotiation contract -/

/-- Claim C1: for every sequence of header values and every ordered offer
list, `negotiateAcceptHeader` selects the offer with the strictly highest
quality among parsed entries whose token equals the offer or is the
wildcard `*` (here stated for a positive best quality; a best quality of
exactly 0 is the explicit-rejection case of claim C2); when several offers
match at equal quality, the offer listed earliest in the supported offer
list wins — `List.find?` over the offer list picks the winner.  In
particular, `negotiate(["gzip;q=0.5, br;q=0.8"], ["gzip","br"],
"identity") = "br"` and `negotiate(["*;q=0.3"], ["gzip","br"],
"identity") = "gzip"`. -/
theorem negotiateAcceptHeader_selects_highest_quality :
    (∀ (in_ offers : List (List Char)) (fb o : List Char),
        0 < bestMatchedQ in_ offers →
        offers.find?
            (fun of => decide (bestMatchedQ in_ offers ∈ matchQs (parseAccept in_) of)) =
          some o →
        negotiateAcceptHeader in_ offers fb = o) ∧
      negotiateAcceptHeader [s2l "gzip;q=0.5, br;q=0.8"] [s2l "gzip", s2l "br"]
          (s2l "identity") = s2l "br" ∧
      negotiateAcceptHeader [s2l "*;q=0.3"] [s2l "gzip", s2l "br"]
          (s2l "identity") = s2l "gzip" := by
  refine ⟨?_, by with_unfolding_all decide, by with_unfolding_all decide⟩
  intro in_ offers fb o hpos hfind
  unfold bestMatchedQ at hpos hfind
  have hlt : ((-1 : ℚ), if fb = [] then IDENTITY else fb).1 <
      (allMatchQs (parseAccept in_) offers).foldl max
        ((-1 : ℚ), if fb = [] then IDENTITY else fb).1 :=
    lt_trans (by norm_num) hpos
  have hfold := negotiate_outer_main (parseAccept in_) offers
    ((-1 : ℚ), if fb = [] then IDENTITY else fb) o hlt hfind
  have hne : (allMatchQs (parseAccept in_) offers).foldl max
      ((-1 : ℚ), if fb = [] then IDENTITY else fb).1 ≠ 0 := ne_of_gt hpos
  simp only [negotiateAcceptHeader]
  rw [hfold]
  simp [hne]

/-- Witness for claim C1 at the first concrete example. -/
theorem negotiateAcceptHeader_selects_highest_quality_witness :
    0 < bestMatchedQ [s2l "gzip;q=0.5, br;q=0.8"] [s2l "gzip", s2l "br"] ∧
      ([s2l "gzip", s2l "br"].find?
          (fun of =>
            decide
              (bestMatchedQ [s2l "gzip;q=0.5, br;q=0.8"] [s2l "gzip", s2l "br"] ∈
                matchQs (parseAccept [s2l "gzip;q=0.5, br;q=0.8"]) of)) =
        some (s2l "br")) ∧
      negotiateAcceptHeader [s2l "gzip;q=0.5, br;q=0.8"] [s2l "gzip", s2l "br"]
          (s2l "fallback") = s2l "br" :=
  ⟨by with_unfolding_all decide, by with_unfolding_all decide,
    negotiateAcceptHeader_selects_highest_quality.1 _ _ _ _
      (by with_unfolding_all decide) (by with_unfolding_all decide)⟩

/-- Claim C2 counterexample: the claim says a no-match negotiation returns
the supplied fallback identifier, but an empty supplied fallback is
replaced by `identity`, not returned. -/
theorem negotiateAcceptHeader_empty_fallback_counterexample :
    negotiateAcceptHeader [] [s2l "gzip"] [] = s2l "identity" ∧
      s2l "identity" ≠ ([] : List Char) := by
  with_unfolding_all decide

/-- Claim C2 (amended): `negotiateAcceptHeader` returns the empty
identifier when the best quality found among matching entries is exactly 0,
and when no parsed entry matches any offer it returns the supplied fallback
identifier except that an empty fallback is replaced by `identity`.  In
particular, `negotiate(["gzip;q=0"], ["gzip"], "identity") = ""` and
`negotiate([], ["gzip","br"], "identity") = "identity"`. -/
theorem negotiateAcceptHeader_rejection_and_fallback :
    (∀ (in_ offers : List (List Char)) (fb : List Char),
        bestMatchedQ in_ offers = 0 → negotiateAcceptHeader in_ offers fb = []) ∧
      (∀ (in_ offers : List (List Char)) (fb : List Char),
          allMatchQs (parseAccept in_) offers = [] →
          negotiateAcceptHeader in_ offers fb = if fb = [] then IDENTITY else fb) ∧
      negotiateAcceptHeader [s2l "gzip;q=0"] [s2l "gzip"] (s2l "identity") = [] ∧
      negotiateAcceptHeader [] [s2l "gzip", s2l "br"] (s2l "identity") = s2l "identity" := by
  refine ⟨?_, ?_, by with_unfolding_all decide, by with_unfolding_all decide⟩
  · intro in_ offers fb h0
    unfold bestMatchedQ at h0
    have hfst := negotiate_outer_fst (parseAccept in_) offers
      ((-1 : ℚ), if fb = [] then IDENTITY else fb)
    have hzero : (offers.foldl (negotiateOfferFold (parseAccept in_))
        ((-1 : ℚ), if fb = [] then IDENTITY else fb)).1 = 0 := hfst.trans h0
    simp only [negotiateAcceptHeader]
    simp [hzero]
  · intro in_ offers fb hA
    have hconst := negotiate_outer_const (parseAccept in_) offers
      ((-1 : ℚ), if fb = [] then IDENTITY else fb)
      (by rw [hA]; intro x hx; simp at hx)
    simp only [negotiateAcceptHeader]
    rw [hconst]
    norm_num

/-- Witness for claim C2, instantiating the explicit-rejection part at
`["gzip;q=0"]` and the no-match part at an empty header list. -/
theorem negotiateAcceptHeader_rejection_and_fallback_witness :
    (bestMatchedQ [s2l "gzip;q=0"] [s2l "gzip"] = 0 ∧
        negotiateAcceptHeader [s2l "gzip;q=0"] [s2l "gzip"] (s2l "identity") = []) ∧
      allMatchQs (parseAccept []) [s2l "gzip", s2l "br"] = [] ∧
        negotiateAcceptHeader [] [s2l "gzip", s2l "br"] (s2l "identity") =
          if s2l "identity" = [] then IDENTITY else s2l "identity" :=
  ⟨⟨by with_unfolding_all decide,
      negotiateAcceptHeader_rejection_and_fallback.1 _ _ _ (by with_unfolding_all decide)⟩,
    by with_unfolding_all decide,
    negotiateAcceptHeader_rejection_and_fallback.2.1 _ _ _ (by with_unfolding_all decide)⟩

/-! ## Claims C3 and C4: parsing of malformed entries and quality values -/

lemma parseAcceptValue_token_only (t : List Char) (hne : t ≠ [])
    (htok : ∀ c ∈ t, isTokenSlashOctet c = true) :
    parseAcceptValue t = [{ value := t, q := 1 }] := by
  have htake : t.takeWhile isTokenSlashOctet = t := List.takeWhile_eq_self_iff.mpr htok
  have hdrop : t.dropWhile isTokenSlashOctet = [] := List.dropWhile_eq_nil_iff.mpr htok
  unfold parseAcceptValue
  simp [parseAcceptValueAux, expectTokenSlash, htake, hdrop, hne, skipSpace, parseAcceptParams]

/-- Claim C3 counterexample: in `"gzip;foo=1, br"` the malformed `q`
parameter of the first entry makes `parseAccept` abandon the whole header
value, so the well-formed `br` entry that follows the comma is NOT parsed
(the claim says it would be). -/
theorem parseAccept_malformed_q_counterexample :
    parseAccept [s2l "gzip;foo=1, br"] = [] ∧
      ¬∃ sp ∈ parseAccept [s2l "gzip;foo=1, br"], sp.value = s2l "br" := by
  with_unfolding_all decide

/-- Claim C3 (amended): an entry with a malformed `q` parameter is
discarded together with the remainder of that header value (the parser
skips to the next header value in the sequence, not merely to the next
comma); well-formed entries appearing before the malformed one in the same
value are kept, and later header values are still parsed.  Malformed
syntax never raises an error: `parseAccept` is total and simply returns
fewer entries. -/
theorem parseAccept_malformed_q_discards_rest :
    (∀ tail : List (List Char),
        parseAccept (s2l "gzip;foo=1, br" :: tail) = parseAccept tail) ∧
      ∀ tail : List (List Char),
        parseAccept (s2l "br;q=0.8, gzip;foo=1, zstd" :: tail) =
          { value := s2l "br", q := 4 / 5 } :: parseAccept tail := by
  constructor
  · intro tail
    have h : parseAcceptValue (s2l "gzip;foo=1, br") = [] := by
      with_unfolding_all decide
    simp [parseAccept, h]
  · intro tail
    have h : parseAcceptValue (s2l "br;q=0.8, gzip;foo=1, zstd") =
        [{ value := s2l "br", q := 4 / 5 }] := by
      with_unfolding_all decide
    simp [parseAccept, h]

/-- Claim C4 counterexample: the quality of `"gzip;q=1.5"` parses to `1.5`,
which is outside the claimed interval `[0.0, 1.0]`. -/
theorem parseAccept_quality_above_one_counterexample :
    ∃ sp ∈ parseAccept [s2l "gzip;q=1.5"], 1 < sp.q := by
  with_unfolding_all decide

/-- Claim C4 (amended): quality weights produced by parsing are not
confined to the interval `[0.0, 1.0]`: an explicit `q` parameter with
integer part `1` followed by a fraction parses above `1.0` — for example
`"gzip;q=1.5"` yields exactly `1.5` (a value the source's `float64`
arithmetic also produces exactly) — while the quality of an entry that
omits the `q` parameter is exactly `1.0`.  No replacement upper bound is
asserted: the source computes qualities in `float64` from 64-bit integer
accumulators, whose rounding and wraparound on extreme fraction strings
escape any tight bound (see the fidelity note on `expectQualityFrac`). -/
theorem parseAccept_quality_default_and_above_one :
    (∀ (t : List Char) (tail : List (List Char)),
        t ≠ [] → (∀ c ∈ t, isTokenSlashOctet c = true) →
        parseAccept (t :: tail) = { value := t, q := 1 } :: parseAccept tail) ∧
      parseAccept [s2l "gzip;q=1.5"] = [{ value := s2l "gzip", q := 3 / 2 }] ∧
      ∃ sp ∈ parseAccept [s2l "gzip;q=1.5"], 1 < sp.q := by
  refine ⟨?_, by with_unfolding_all decide, by with_unfolding_all decide⟩
  intro t tail hne htok
  simp [parseAccept, parseAcceptValue_token_only t hne htok]

/-- Witness for claim C4: the default quality applied to the bare token
`"gzip"`. -/
theorem parseAccept_quality_default_and_above_one_witness :
    s2l "gzip" ≠ [] ∧
      (∀ c ∈ s2l "gzip", isTokenSlashOctet c = true) ∧
      parseAccept [s2l "gzip"] = [{ value := s2l "gzip", q := 1 }] := by
  refine ⟨by with_unfolding_all decide, by with_unfolding_all decide, ?_⟩
  have h := parseAccept_quality_default_and_above_one.1 (s2l "gzip") []
    (by with_unfolding_all decide) (by with_unfolding_all decide)
  simpa [parseAccept] using h

/-! ## HTTP header model (Go `net/http.Header` as used by the source)

Only canonical header keys appear in the source, so MIME canonicalization
is the identity here.  `none` models a key absent from the Go map (the
source distinguishes absence, via `_, has := h[k]`, from any value). -/

def Header : Type := String → Option (List (List Char))

/-- Map lookup `h[k]` (presence-aware). -/
def Header.get (h : Header) (k : String) : Option (List (List Char)) := h k

/-- `h.Set(k, v)`: replace the entry with the single value `v`. -/
def Header.set (h : Header) (k : String) (v : List Char) : Header :=
  fun x => if x = k then some [v] else h x

/-- `h.Del(k)` / `delete(h, k)`: remove the entry. -/
def Header.del (h : Header) (k : String) : Header :=
  fun x => if x = k then none else h x

/-- `h.Values(k)`: all values, nil meaning an empty list. -/
def Header.values (h : Header) (k : String) : List (List Char) := (h k).getD []

/-- The empty header map. -/
def Header.empty : Header := fun _ => none

lemma Header_get_set_self (h : Header) (k : String) (v : List Char) :
    (h.set k v).get k = some [v] := by
  simp [Header.set, Header.get]

lemma Header_get_set_ne (h : Header) (k x : String) (v : List Char) (hne : x ≠ k) :
    (h.set k v).get x = h.get x := by
  simp [Header.set, Header.get, hne]

lemma Header_get_del_self (h : Header) (k : String) : (h.del k).get k = none := by
  simp [Header.del, Header.get]

lemma Header_get_del_ne (h : Header) (k x : String) (hne : x ≠ k) :
    (h.del k).get x = h.get x := by
  simp [Header.del, Header.get, hne]

/-! ## Header keys (source: `compress.go` constants) -/

def AcceptEncodingHeaderKey : String := "Accept-Encoding"

def VaryHeaderKey : String := "Vary"

def ContentEncodingHeaderKey : String := "Content-Encoding"

def ContentLengthHeaderKey : String := "Content-Length"

def ContentTypeHeaderKey : String := "Content-Type"

/-- The three sentinel errors of the package.  In Go these are distinct
`error` values compared by identity (`errors.Is`); the wrapped error
`fmt.Errorf("%w: %s", ErrNotSupportedCompression, ...)` produced by
`NewResponseWriter` matches `ErrNotSupportedCompression` and is modelled as
that constructor. -/
inductive CompressError
  | responseNotCompressed
  | requestNotCompressed
  | notSupportedCompression
deriving DecidableEq

/-- AddCompressHeaders just adds the headers "Vary" to "Accept-Encoding"
and "Content-Encoding" to the given encoding. -/
def AddCompressHeaders (h : Header) (encoding : List Char) : Header :=
  (h.set VaryHeaderKey (s2l AcceptEncodingHeaderKey)).set ContentEncodingHeaderKey encoding

/-! ## NewWriter (source: `compress.go`)

The external codec constructors (gzip, flate, brotli, snappy, s2) are
black-box stream transformers; the model records which encoding and which
level are handed to the constructor.  (Level-range validation inside the
gzip/flate libraries is external behavior outside the model.) -/

def NewWriter (encoding : List Char) (level : ℤ) : Except CompressError (List Char × ℤ) :=
  if encoding = GZIP then .ok (encoding, level)
  else if encoding = DEFLATE then .ok (encoding, level)
  else if encoding = BROTLI then .ok (encoding, if level = -1 then 6 else level)
  else if encoding = SNAPPY then .ok (encoding, level)
  else if encoding = S2 then .ok (encoding, level)
  else .error .notSupportedCompression

/-! ## The compressing ResponseWriter (source: `compress.go`) -/

/-- The calls a `ResponseWriter` forwards to its collaborators, in order:
a status code sent to the wrapped sink's `WriteHeader`, a chunk written to
the compressing stream, a `Flush` of the compressing stream. -/
inductive SinkEvent
  | status (code : ℕ)
  | chunk (p : List Char)
  | flush
deriving DecidableEq

/-- ResponseWriter is a compressed data http.ResponseWriter.  The model
keeps the wrapped sink's header map, the `Encoding`/`Level`/`AutoFlush`
fields and the `wroteHeader` flag of the source, and an event log for the
calls forwarded to the compressing stream and the wrapped sink.  The
optional Pusher/CloseNotifier/Hijacker capabilities captured by the source
are pass-through probes with no bearing on the claims and are omitted. -/
structure ResponseWriter where
  header : Header
  Encoding : List Char
  Level : ℤ
  AutoFlush : Bool
  wroteHeader : Bool
  events : List SinkEvent

/-- WriteHeader sends an HTTP response header with the provided status
code: on the first call it deletes the "Content-Length" response header
and calls the wrapped ResponseWriter's WriteHeader method; later calls do
nothing. -/
def ResponseWriter.WriteHeader (w : ResponseWriter) (statusCode : ℕ) : ResponseWriter :=
  if w.wroteHeader then w
  else
    { w with
      wroteHeader := true
      header := w.header.del ContentLengthHeaderKey
      events := w.events ++ [SinkEvent.status statusCode] }

/-- `Write`: set the Content-Type header from `http.DetectContentType`
(modelled by the parameter `detect`) when the handler set none, implicitly
send a 200 status when none was sent, forward the chunk to the compressing
stream, and flush it when `AutoFlush` is set. -/
def ResponseWriter.Write (detect : List Char → List Char) (w : ResponseWriter)
    (p : List Char) : ResponseWriter :=
  let w1 := if (w.header.get ContentTypeHeaderKey).isSome then w
            else { w with header := w.header.set ContentTypeHeaderKey (detect p) }
  let w2 := if w1.wroteHeader then w1 else w1.WriteHeader 200
  let w3 := { w2 with events := w2.events ++ [SinkEvent.chunk p] }
  if w3.AutoFlush then { w3 with events := w3.events ++ [SinkEvent.flush] } else w3

/-- The server's supported offer list passed to the negotiator. -/
def supportedEncodings : List (List Char) := [GZIP, DEFLATE, BROTLI, SNAPPY, S2]

/-- `NewResponseWriter`: fail when the Accept-Encoding header is absent;
negotiate against the builtin offers with fallback IDENTITY; fail when the
negotiation rejects everything; remap the default brotli level; construct
the compressing stream (an IDENTITY outcome fails here, inside
`NewWriter`); then add the compress headers and return the wrapper with
`AutoFlush` enabled. -/
def NewResponseWriter (h : Header) (acceptEncoding : List (List Char)) (level : ℤ) :
    Except CompressError ResponseWriter :=
  if acceptEncoding = [] then .error .responseNotCompressed
  else
    if negotiateAcceptHeader acceptEncoding supportedEncodings IDENTITY = [] then
      .error .notSupportedCompression
    else
      match NewWriter (negotiateAcceptHeader acceptEncoding supportedEncodings IDENTITY)
          (if level = -1 ∧ negotiateAcceptHeader acceptEncoding supportedEncodings IDENTITY =
              BROTLI then 6 else level) with
      | .error e => .error e
      | .ok _ =>
        .ok
          { header :=
              AddCompressHeaders h (negotiateAcceptHeader acceptEncoding supportedEncodings
                IDENTITY)
            Encoding := negotiateAcceptHeader acceptEncoding supportedEncodings IDENTITY
            Level := if level = -1 ∧ negotiateAcceptHeader acceptEncoding supportedEncodings
                IDENTITY = BROTLI then 6 else level
            AutoFlush := true
            wroteHeader := false
            events := [] }

lemma NewResponseWriter_ok_elim (h : Header) (a : List (List Char)) (level : ℤ)
    (st : ResponseWriter) (hok : NewResponseWriter h a level = .ok st) :
    st.Encoding = negotiateAcceptHeader a supportedEncodings IDENTITY ∧
      st.header = AddCompressHeaders h st.Encoding ∧
      st.AutoFlush = true ∧ st.wroteHeader = false ∧ st.events = [] := by
  simp only [NewResponseWriter] at hok
  split at hok
  · exact absurd hok (by simp)
  · split at hok
    · exact absurd hok (by simp)
    · split at hok
      · exact absurd hok (by simp)
      · have hrec := Except.ok.inj hok
        rw [← hrec]
        exact ⟨rfl, rfl, rfl, rfl, rfl⟩

/-! ## Claims C5, C6 and C9: the response decorator -/

/-- Claim C5 counterexample: a fixed `Content-Length: 100` set before
construction is still present in the header map right after a successful
`NewResponseWriter` (the claim says it would already be absent; it is only
deleted later, by `WriteHeader`). -/
theorem NewResponseWriter_content_length_counterexample :
    ((NewResponseWriter (Header.empty.set ContentLengthHeaderKey (s2l "100"))
          [s2l "gzip"] (-1)).toOption.map
        (fun st => st.header.get ContentLengthHeaderKey)) = some (some [s2l "100"]) := by
  with_unfolding_all decide

/-- Claim C5 (amended): after a successful `NewResponseWriter` the response
header map contains `Vary: Accept-Encoding` and `Content-Encoding` set to
the chosen identifier, while a previously set fixed `Content-Length`
header is still present (unchanged from the caller's map); it is deleted
by the (first) `WriteHeader`, i.e. before the status is forwarded. -/
theorem NewResponseWriter_sets_compress_headers :
    ∀ (h : Header) (a : List (List Char)) (level : ℤ) (st : ResponseWriter),
      NewResponseWriter h a level = .ok st →
      st.header.get VaryHeaderKey = some [s2l AcceptEncodingHeaderKey] ∧
        st.header.get ContentEncodingHeaderKey = some [st.Encoding] ∧
        st.header.get ContentLengthHeaderKey = h.get ContentLengthHeaderKey ∧
        ∀ code : ℕ, (st.WriteHeader code).header.get ContentLengthHeaderKey = none := by
  intro h a level st hok
  obtain ⟨henc, hheader, hauto, hwrote, hevents⟩ := NewResponseWriter_ok_elim h a level st hok
  have hv_ce : VaryHeaderKey ≠ ContentEncodingHeaderKey := by decide
  have hcl_ce : ContentLengthHeaderKey ≠ ContentEncodingHeaderKey := by decide
  have hcl_v : ContentLengthHeaderKey ≠ VaryHeaderKey := by decide
  refine ⟨?_, ?_, ?_, ?_⟩
  · rw [hheader, AddCompressHeaders, Header_get_set_ne _ _ _ _ hv_ce, Header_get_set_self]
  · rw [hheader, AddCompressHeaders, Header_get_set_self]
  · rw [hheader, AddCompressHeaders, Header_get_set_ne _ _ _ _ hcl_ce,
      Header_get_set_ne _ _ _ _ hcl_v]
  · intro code
    rw [ResponseWriter.WriteHeader, if_neg (by rw [hwrote]; exact Bool.false_ne_true)]
    exact Header_get_del_self _ _

/-- A concrete header map with a stale fixed content length, for the C5
witness. -/
def exampleRespHeader : Header := Header.empty.set ContentLengthHeaderKey (s2l "100")

/-- The concrete `ResponseWriter` produced for `Accept-Encoding: gzip`
over `exampleRespHeader`. -/
def exampleResponseWriter : ResponseWriter :=
  { header := AddCompressHeaders exampleRespHeader GZIP
    Encoding := GZIP
    Level := -1
    AutoFlush := true
    wroteHeader := false
    events := [] }

/-- Witness for claim C5 at a concrete construction. -/
theorem NewResponseWriter_sets_compress_headers_witness :
    NewResponseWriter exampleRespHeader [s2l "gzip"] (-1) = .ok exampleResponseWriter ∧
      exampleResponseWriter.header.get VaryHeaderKey = some [s2l AcceptEncodingHeaderKey] ∧
      exampleResponseWriter.header.get ContentEncodingHeaderKey =
        some [exampleResponseWriter.Encoding] ∧
      exampleResponseWriter.header.get ContentLengthHeaderKey =
        exampleRespHeader.get ContentLengthHeaderKey ∧
      (exampleResponseWriter.WriteHeader 200).header.get ContentLengthHeaderKey = none := by
  have hok : NewResponseWriter exampleRespHeader [s2l "gzip"] (-1) =
      .ok exampleResponseWriter := by
    with_unfolding_all rfl
  have hmain := NewResponseWriter_sets_compress_headers exampleRespHeader [s2l "gzip"] (-1)
    exampleResponseWriter hok
  exact ⟨hok, hmain.1, hmain.2.1, hmain.2.2.1, hmain.2.2.2 200⟩

lemma ResponseWriter_Write_events (detect : List Char → List Char) (w : ResponseWriter)
    (q : List Char) (hAF : w.AutoFlush = true) :
    (ResponseWriter.Write detect w q).events =
      w.events ++ (if w.wroteHeader then [] else [SinkEvent.status 200]) ++
        [SinkEvent.chunk q, SinkEvent.flush] := by
  by_cases hct : (w.header.get ContentTypeHeaderKey).isSome
  · by_cases hwh : w.wroteHeader = true
    · simp [ResponseWriter.Write, ResponseWriter.WriteHeader, hct, hwh, hAF]
    · simp [ResponseWriter.Write, ResponseWriter.WriteHeader, hct, hwh, hAF]
  · by_cases hwh : w.wroteHeader = true
    · simp [ResponseWriter.Write, ResponseWriter.WriteHeader, hct, hwh, hAF]
    · simp [ResponseWriter.Write, ResponseWriter.WriteHeader, hct, hwh, hAF]

lemma ResponseWriter_Write_wroteHeader (detect : List Char → List Char) (w : ResponseWriter)
    (p : List Char) (hwh : w.wroteHeader = true) :
    (ResponseWriter.Write detect w p).wroteHeader = true := by
  by_cases hct : (w.header.get ContentTypeHeaderKey).isSome
  · by_cases haf : w.AutoFlush = true
    · simp [ResponseWriter.Write, hct, hwh, haf]
    · simp [ResponseWriter.Write, hct, hwh, haf]
  · by_cases haf : w.AutoFlush = true
    · simp [ResponseWriter.Write, hct, hwh, haf]
    · simp [ResponseWriter.Write, hct, hwh, haf]

lemma ResponseWriter_Write_wroteHeader_of_false (detect : List Char → List Char)
    (w : ResponseWriter) (p : List Char) (hwh : w.wroteHeader = false) :
    (ResponseWriter.Write detect w p).wroteHeader = true := by
  by_cases hct : (w.header.get ContentTypeHeaderKey).isSome
  · by_cases haf : w.AutoFlush = true
    · simp [ResponseWriter.Write, ResponseWriter.WriteHeader, hct, hwh, haf]
    · simp [ResponseWriter.Write, ResponseWriter.WriteHeader, hct, hwh, haf]
  · by_cases haf : w.AutoFlush = true
    · simp [ResponseWriter.Write, ResponseWriter.WriteHeader, hct, hwh, haf]
    · simp [ResponseWriter.Write, ResponseWriter.WriteHeader, hct, hwh, haf]

lemma ResponseWriter_Write_header_ct_none (detect : List Char → List Char)
    (w : ResponseWriter) (p : List Char) (hct : w.header.get ContentTypeHeaderKey = none)
    (hwh : w.wroteHeader = false) :
    (ResponseWriter.Write detect w p).header =
      (w.header.set ContentTypeHeaderKey (detect p)).del ContentLengthHeaderKey := by
  by_cases haf : w.AutoFlush = true
  · simp [ResponseWriter.Write, ResponseWriter.WriteHeader, hct, hwh, haf]
  · simp [ResponseWriter.Write, ResponseWriter.WriteHeader, hct, hwh, haf]

lemma ResponseWriter_Write_header_ct_some (detect : List Char → List Char)
    (w : ResponseWriter) (p : List Char) (hct : (w.header.get ContentTypeHeaderKey).isSome = true)
    (hwh : w.wroteHeader = true) :
    (ResponseWriter.Write detect w p).header = w.header := by
  by_cases haf : w.AutoFlush = true
  · simp [ResponseWriter.Write, hct, hwh, haf]
  · simp [ResponseWriter.Write, hct, hwh, haf]

/-- Claim C6: on the first write after a successful construction, if the
handler set no Content-Type header, the body's content type is detected
from the first chunk and set, and only once (a second write leaves it at
the value detected from the first chunk); a default 200 status is sent to
the wrapped sink before the chunk reaches the compressing stream; and with
`AutoFlush` (on after construction) the compressing stream is flushed
after every write. -/
theorem ResponseWriter_Write_first_write :
    (∀ (h : Header) (a : List (List Char)) (level : ℤ) (st : ResponseWriter)
        (detect : List Char → List Char) (p p' : List Char),
        NewResponseWriter h a level = .ok st →
        h.get ContentTypeHeaderKey = none →
        (ResponseWriter.Write detect st p).header.get ContentTypeHeaderKey =
            some [detect p] ∧
          (ResponseWriter.Write detect (ResponseWriter.Write detect st p) p').header.get
              ContentTypeHeaderKey = some [detect p] ∧
          (ResponseWriter.Write detect st p).events =
            [SinkEvent.status 200, SinkEvent.chunk p, SinkEvent.flush]) ∧
      ∀ (detect : List Char → List Char) (w : ResponseWriter) (q : List Char),
        w.AutoFlush = true →
        (ResponseWriter.Write detect w q).events =
          w.events ++ (if w.wroteHeader then [] else [SinkEvent.status 200]) ++
            [SinkEvent.chunk q, SinkEvent.flush] := by
  refine ⟨?_, ResponseWriter_Write_events⟩
  intro h a level st detect p p' hok hctnone
  obtain ⟨henc, hheader, hauto, hwrote, hevents⟩ := NewResponseWriter_ok_elim h a level st hok
  have hct_ce : ContentTypeHeaderKey ≠ ContentEncodingHeaderKey := by decide
  have hct_v : ContentTypeHeaderKey ≠ VaryHeaderKey := by decide
  have hct_cl : ContentTypeHeaderKey ≠ ContentLengthHeaderKey := by decide
  have hctst : st.header.get ContentTypeHeaderKey = none := by
    rw [hheader, AddCompressHeaders, Header_get_set_ne _ _ _ _ hct_ce,
      Header_get_set_ne _ _ _ _ hct_v]
    exact hctnone
  have h1 : (ResponseWriter.Write detect st p).header =
      (st.header.set ContentTypeHeaderKey (detect p)).del ContentLengthHeaderKey :=
    ResponseWriter_Write_header_ct_none detect st p hctst hwrote
  have hget1 : (ResponseWriter.Write detect st p).header.get ContentTypeHeaderKey =
      some [detect p] := by
    rw [h1, Header_get_del_ne _ _ _ hct_cl, Header_get_set_self]
  refine ⟨hget1, ?_, ?_⟩
  · have hw'wh : (ResponseWriter.Write detect st p).wroteHeader = true :=
      ResponseWriter_Write_wroteHeader_of_false detect st p hwrote
    have h2 : (ResponseWriter.Write detect (ResponseWriter.Write detect st p) p').header =
        (ResponseWriter.Write detect st p).header :=
      ResponseWriter_Write_header_ct_some detect _ p' (by rw [hget1]; rfl) hw'wh
    rw [h2, hget1]
  · rw [ResponseWriter_Write_events detect st p hauto, hwrote, hevents]
    simp

/-- The concrete `ResponseWriter` produced for `Accept-Encoding: gzip`
over an empty header map, for the C6 and C9 witnesses. -/
def exampleResponseWriter2 : ResponseWriter :=
  { header := AddCompressHeaders Header.empty GZIP
    Encoding := GZIP
    Level := -1
    AutoFlush := true
    wroteHeader := false
    events := [] }

/-- Witness for claim C6 at a concrete construction and first write. -/
theorem ResponseWriter_Write_first_write_witness :
    NewResponseWriter Header.empty [s2l "gzip"] (-1) = .ok exampleResponseWriter2 ∧
      Header.empty.get ContentTypeHeaderKey = none ∧
      (ResponseWriter.Write (fun _ => s2l "text/plain") exampleResponseWriter2
          (s2l "hi")).events =
        [SinkEvent.status 200, SinkEvent.chunk (s2l "hi"), SinkEvent.flush] ∧
      (ResponseWriter.Write (fun _ => s2l "text/plain") exampleResponseWriter2
          (s2l "hi")).header.get ContentTypeHeaderKey = some [s2l "text/plain"] := by
  have hok : NewResponseWriter Header.empty [s2l "gzip"] (-1) = .ok exampleResponseWriter2 := by
    with_unfolding_all rfl
  have hmain := ResponseWriter_Write_first_write.1 Header.empty [s2l "gzip"] (-1)
    exampleResponseWriter2 (fun _ => s2l "text/plain") (s2l "hi") (s2l "yo") hok rfl
  exact ⟨hok, rfl, hmain.2.2, hmain.1⟩

lemma ResponseWriter_WriteHeader_wroteHeader (w : ResponseWriter) (code : ℕ) :
    (w.WriteHeader code).wroteHeader = true := by
  by_cases hw : w.wroteHeader = true
  · simp [ResponseWriter.WriteHeader, hw]
  · simp [ResponseWriter.WriteHeader, hw]

/-- Claim C9: `WriteHeader` performs exactly one transition to the
header-sent state: a first call (from the unsent state) deletes the
Content-Length header and forwards the status code to the wrapped sink;
any call in the sent state is a no-op; hence after one call every further
sequence of calls changes nothing, so the wrapped sink's `WriteHeader`
receives at most one status per `ResponseWriter`. -/
theorem ResponseWriter_WriteHeader_once :
    (∀ (w : ResponseWriter) (code : ℕ), w.wroteHeader = false →
        w.WriteHeader code =
          { w with
            wroteHeader := true
            header := w.header.del ContentLengthHeaderKey
            events := w.events ++ [SinkEvent.status code] }) ∧
      (∀ (w : ResponseWriter) (code : ℕ), w.wroteHeader = true → w.WriteHeader code = w) ∧
      ∀ (w : ResponseWriter) (code : ℕ) (codes : List ℕ),
        codes.foldl (fun x c => x.WriteHeader c) (w.WriteHeader code) = w.WriteHeader code := by
  have h2 : ∀ (w : ResponseWriter) (code : ℕ), w.wroteHeader = true → w.WriteHeader code = w := by
    intro w code hw
    simp [ResponseWriter.WriteHeader, hw]
  refine ⟨?_, h2, ?_⟩
  · intro w code hw
    simp [ResponseWriter.WriteHeader, hw]
  · intro w code codes
    have hgen : ∀ (cs : List ℕ) (x : ResponseWriter), x.wroteHeader = true →
        cs.foldl (fun y c => y.WriteHeader c) x = x := by
      intro cs
      induction cs with
      | nil => intro x _; rfl
      | cons c t ih =>
        intro x hx
        rw [List.foldl_cons, h2 x c hx]
        exact ih x hx
    exact hgen codes _ (ResponseWriter_WriteHeader_wroteHeader w code)

/-- Witness for claim C9 at a concrete writer and status codes. -/
theorem ResponseWriter_WriteHeader_once_witness :
    exampleResponseWriter2.wroteHeader = false ∧
      exampleResponseWriter2.WriteHeader 404 =
        { exampleResponseWriter2 with
          wroteHeader := true
          header := exampleResponseWriter2.header.del ContentLengthHeaderKey
          events := exampleResponseWriter2.events ++ [SinkEvent.status 404] } ∧
      (exampleResponseWriter2.WriteHeader 404).WriteHeader 500 =
        exampleResponseWriter2.WriteHeader 404 :=
  ⟨rfl, ResponseWriter_WriteHeader_once.1 exampleResponseWriter2 404 rfl,
    ResponseWriter_WriteHeader_once.2.1 _ 500 (ResponseWriter_WriteHeader_wroteHeader _ _)⟩

/-! ## The decompressing Reader (source: `compress.go`) -/

/-- Which decompressing stream `NewReader` installs as the embedded
`io.ReadCloser`: gzip and flate readers carry their own `Close`; the
brotli, snappy and s2 readers have no native close and are wrapped in
`noOpReadCloser`, whose `Close` does nothing. -/
inductive ReadCloserKind
  | gzipReader
  | flateReader
  | noOpWrapped
deriving DecidableEq

/-- Reader is a structure which wraps a compressed reader: the embedded
decompressing `ReadCloser`, whether the original source `Src` had to be
wrapped in a `noOpReadCloser` (no native close), and the encoding. -/
structure Reader where
  ReadCloser : ReadCloserKind
  srcWrapped : Bool
  Encoding : List Char
deriving DecidableEq

/-- `NewReader`: reject an empty encoding or a missing source with
`ErrRequestNotCompressed`; install the decompressing stream for the five
known encodings (gzip header reading is external-library behavior,
modelled as succeeding); reject anything else with
`ErrNotSupportedCompression`; keep the source, wrapped in a no-op closer
when it has no native close. -/
def NewReader (srcPresent : Bool) (srcHasClose : Bool) (encoding : List Char) :
    Except CompressError Reader :=
  if encoding = [] ∨ srcPresent = false then .error .requestNotCompressed
  else if encoding = GZIP then .ok ⟨.gzipReader, !srcHasClose, encoding⟩
  else if encoding = DEFLATE then .ok ⟨.flateReader, !srcHasClose, encoding⟩
  else if encoding = BROTLI then .ok ⟨.noOpWrapped, !srcHasClose, encoding⟩
  else if encoding = SNAPPY then .ok ⟨.noOpWrapped, !srcHasClose, encoding⟩
  else if encoding = S2 then .ok ⟨.noOpWrapped, !srcHasClose, encoding⟩
  else .error .notSupportedCompression

/-- Close invocations observed by the two underlying resources of a
`Reader`: the decompressing stream and the ORIGINAL source. -/
structure CloseLog where
  rcCloseCalls : ℕ
  srcCloseCalls : ℕ
deriving DecidableEq

/-- The `Reader` type declares no `Close` method of its own, so Go
promotes `Close` from the embedded `io.ReadCloser` — the decompressing
stream.  For gzip/flate that closes the decompressing stream; for the
`noOpReadCloser`-wrapped codecs it does nothing at all.  In no case does
it reach the `Src` field: the source comments leave closing the request
body to the server. -/
def Reader.Close (r : Reader) (log : CloseLog) : CloseLog :=
  match r.ReadCloser with
  | .gzipReader => { log with rcCloseCalls := log.rcCloseCalls + 1 }
  | .flateReader => { log with rcCloseCalls := log.rcCloseCalls + 1 }
  | .noOpWrapped => log

/-- Claim C7 counterexample: closing the `Reader` built by
`NewReader` for gzip performs zero close calls on the original source —
the claim says closing the Reader closes the original source as well. -/
theorem Reader_Close_counterexample :
    (NewReader true true GZIP).toOption.map
        (fun r => (r.Close { rcCloseCalls := 0, srcCloseCalls := 0 }).srcCloseCalls) =
      some 0 := by
  with_unfolding_all decide

/-- Claim C7 (amended): closing a `Reader` invokes only the promoted
`Close` of the embedded decompressing stream (a real close for gzip and
flate, a no-op for the wrapped brotli/snappy/s2 readers) and never closes
the original source — the server or caller closes it — so the source
cannot be double-released by the Reader and closing the Reader twice is
harmless; `NewReader` does wrap a source lacking a native close in a
no-op closer. -/
theorem Reader_Close_only_decompressor :
    (∀ (r : Reader) (log : CloseLog), (r.Close log).srcCloseCalls = log.srcCloseCalls) ∧
      (∀ (r : Reader) (log : CloseLog),
          (r.Close (r.Close log)).srcCloseCalls = log.srcCloseCalls) ∧
      (∀ (r : Reader) (log : CloseLog), r.ReadCloser ≠ ReadCloserKind.noOpWrapped →
          (r.Close log).rcCloseCalls = log.rcCloseCalls + 1) ∧
      ∀ (srcPresent srcHasClose : Bool) (enc : List Char) (r : Reader),
        NewReader srcPresent srcHasClose enc = .ok r → r.srcWrapped = !srcHasClose := by
  have h1 : ∀ (r : Reader) (log : CloseLog), (r.Close log).srcCloseCalls = log.srcCloseCalls := by
    intro r log
    rcases hr : r.ReadCloser <;> simp [Reader.Close, hr]
  refine ⟨h1, fun r log => (h1 r _).trans (h1 r log), ?_, ?_⟩
  · intro r log hk
    rcases hr : r.ReadCloser
    · simp [Reader.Close, hr]
    · simp [Reader.Close, hr]
    · exact absurd hr hk
  · intro srcPresent srcHasClose enc r h
    unfold NewReader at h
    split_ifs at h
    · rw [← Except.ok.inj h]
    · rw [← Except.ok.inj h]
    · rw [← Except.ok.inj h]
    · rw [← Except.ok.inj h]
    · rw [← Except.ok.inj h]

/-- Witness for claim C7 at a gzip `Reader` over a source without a
native close. -/
theorem Reader_Close_only_decompressor_witness :
    NewReader true false GZIP = .ok ⟨ReadCloserKind.gzipReader, true, GZIP⟩ ∧
      (⟨ReadCloserKind.gzipReader, true, GZIP⟩ : Reader).srcWrapped = !false ∧
      (⟨ReadCloserKind.gzipReader, true, GZIP⟩ : Reader).ReadCloser ≠
        ReadCloserKind.noOpWrapped ∧
      ((⟨ReadCloserKind.gzipReader, true, GZIP⟩ : Reader).Close
          { rcCloseCalls := 0, srcCloseCalls := 0 }).rcCloseCalls = 0 + 1 ∧
      ((⟨ReadCloserKind.gzipReader, true, GZIP⟩ : Reader).Close
          { rcCloseCalls := 0, srcCloseCalls := 0 }).srcCloseCalls = 0 := by
  have hok : NewReader true false GZIP = .ok ⟨ReadCloserKind.gzipReader, true, GZIP⟩ := by
    with_unfolding_all rfl
  refine ⟨hok, Reader_Close_only_decompressor.2.2.2 true false GZIP _ hok, by decide,
    Reader_Close_only_decompressor.2.2.1 _ _ (by decide),
    Reader_Close_only_decompressor.1 _ _⟩

/-! ## Claim C8: NewWriter's closed identifier set and the brotli default -/

lemma NewWriter_default_branch (enc : List Char) (level : ℤ) (h1 : enc ≠ GZIP)
    (h2 : enc ≠ DEFLATE) (h3 : enc ≠ BROTLI) (h4 : enc ≠ SNAPPY) (h5 : enc ≠ S2) :
    NewWriter enc level = .error CompressError.notSupportedCompression := by
  simp [NewWriter, h1, h2, h3, h4, h5]

/-- Claim C8: `NewWriter` returns `ErrNotSupportedCompression` for every
identifier outside the fixed set of five, including the reserved
`identity` identifier; and for brotli with level `-1` the level is
remapped to the concrete default 6 before the compressing stream is
constructed. -/
theorem NewWriter_unsupported_and_brotli_default :
    (∀ (enc : List Char) (level : ℤ), enc ∉ [GZIP, DEFLATE, BROTLI, SNAPPY, S2] →
        NewWriter enc level = .error CompressError.notSupportedCompression) ∧
      (∀ level : ℤ, NewWriter IDENTITY level = .error CompressError.notSupportedCompression) ∧
      NewWriter BROTLI (-1) = .ok (BROTLI, 6) := by
  refine ⟨?_, ?_, by with_unfolding_all rfl⟩
  · intro enc level hmem
    simp only [List.mem_cons, List.not_mem_nil, or_false, not_or] at hmem
    exact NewWriter_default_branch enc level hmem.1 hmem.2.1 hmem.2.2.1 hmem.2.2.2.1
      hmem.2.2.2.2
  · intro level
    refine NewWriter_default_branch IDENTITY level ?_ ?_ ?_ ?_ ?_ <;> with_unfolding_all decide

/-- Witness for claim C8 at the unknown identifier `zstd`. -/
theorem NewWriter_unsupported_and_brotli_default_witness :
    s2l "zstd" ∉ [GZIP, DEFLATE, BROTLI, SNAPPY, S2] ∧
      NewWriter (s2l "zstd") 3 = .error CompressError.notSupportedCompression :=
  ⟨by with_unfolding_all decide,
    NewWriter_unsupported_and_brotli_default.1 (s2l "zstd") 3 (by with_unfolding_all decide)⟩

/-! ## Claim C10: the WriteHandler middleware (source: `handler.go`) -/

/-- What the wrapped handler (`next`) observes when `WriteHandler` runs:
whether it got the compressing writer, the request headers at that moment,
and the writer state it got.  (The deferred `cr.Close()` after `next`
returns is outside this observation.) -/
structure HandlerOutcome where
  compressed : Bool
  reqHeaderSeen : Header
  writerState : Option ResponseWriter

/-- WriteHandler is the write-using-compression middleware: build a
compressing `ResponseWriter` over the response sink from the request's
Accept-Encoding values at the default level `-1`; on failure invoke the
wrapped handler with the original writer and the request untouched; on
success delete the request's Accept-Encoding header and invoke the
wrapped handler with the compressing writer. -/
def WriteHandler (reqHeader : Header) (respHeader : Header) : HandlerOutcome :=
  match NewResponseWriter respHeader (reqHeader.values AcceptEncodingHeaderKey) (-1) with
  | .error _ =>
    { compressed := false, reqHeaderSeen := reqHeader, writerState := none }
  | .ok st =>
    { compressed := true, reqHeaderSeen := reqHeader.del AcceptEncodingHeaderKey,
      writerState := some st }

/-- Claim C10: whenever `NewResponseWriter` succeeds, `WriteHandler`
deletes the Accept-Encoding header from the request before invoking the
wrapped handler — so the inner handler observes no negotiation header —
and hands it the compressing writer; when `NewResponseWriter` fails, the
wrapped handler runs with the original response writer and the request's
headers unchanged. -/
theorem WriteHandler_deletes_accept_encoding :
    (∀ (rh respH : Header) (st : ResponseWriter),
        NewResponseWriter respH (rh.values AcceptEncodingHeaderKey) (-1) = .ok st →
        WriteHandler rh respH =
            { compressed := true, reqHeaderSeen := rh.del AcceptEncodingHeaderKey,
              writerState := some st } ∧
          (WriteHandler rh respH).reqHeaderSeen.get AcceptEncodingHeaderKey = none) ∧
      ∀ (rh respH : Header) (e : CompressError),
        NewResponseWriter respH (rh.values AcceptEncodingHeaderKey) (-1) = .error e →
        WriteHandler rh respH =
          { compressed := false, reqHeaderSeen := rh, writerState := none } := by
  constructor
  · intro rh respH st hok
    constructor
    · simp [WriteHandler, hok]
    · simp [WriteHandler, hok, Header.del, Header.get]
  · intro rh respH e herr
    simp [WriteHandler, herr]

/-- Witness for claim C10: a request advertising `gzip` has the header
deleted for the inner handler; a request with no Accept-Encoding leaves
the original writer and headers in place. -/
theorem WriteHandler_deletes_accept_encoding_witness :
    NewResponseWriter Header.empty
        ((Header.empty.set AcceptEncodingHeaderKey (s2l "gzip")).values
          AcceptEncodingHeaderKey) (-1) = .ok exampleResponseWriter2 ∧
      (WriteHandler (Header.empty.set AcceptEncodingHeaderKey (s2l "gzip"))
          Header.empty).reqHeaderSeen.get AcceptEncodingHeaderKey = none ∧
      NewResponseWriter Header.empty (Header.empty.values AcceptEncodingHeaderKey) (-1) =
        .error CompressError.responseNotCompressed ∧
      WriteHandler Header.empty Header.empty =
        { compressed := false, reqHeaderSeen := Header.empty, writerState := none } := by
  have hok : NewResponseWriter Header.empty
      ((Header.empty.set AcceptEncodingHeaderKey (s2l "gzip")).values
        AcceptEncodingHeaderKey) (-1) = .ok exampleResponseWriter2 := by
    with_unfolding_all rfl
  have herr : NewResponseWriter Header.empty
      (Header.empty.values AcceptEncodingHeaderKey) (-1) =
      .error CompressError.responseNotCompressed := by
    with_unfolding_all rfl
  exact ⟨hok,
    (WriteHandler_deletes_accept_encoding.1 _ Header.empty exampleResponseWriter2 hok).2,
    herr,
    WriteHandler_deletes_accept_encoding.2 Header.empty Header.empty
      CompressError.responseNotCompressed herr⟩
